import Mathlib

/-!
Shallow embedding of the `hello_rust_webserver` thread pool
(`src/lib.rs`: `ThreadPool`, `Worker`, `ThreadError`) and proofs of the
specification claims about it.

Modelling conventions:
* the platform's reported available parallelism is a parameter `par : Nat`;
* thread-spawn success is an oracle `spawnOk : Nat → Bool` (indexed by the
  worker id whose spawn is attempted), and join success is `joinOk`;
* `mpsc::Sender<Job>` values are abstracted to `Unit` (only presence matters);
* a `JoinHandle` is abstracted to `Unit` inside `Option` (present/taken);
* panics (`expect`) are explicit outcomes, never silently dropped;
* the concurrent worker loop is a small-step transition system `Step` over
  `SysState`, with jobs identified by `Nat` tags.
-/

namespace RustPool

/-- Embeds `enum ThreadError` from src/lib.rs. -/
inductive ThreadError
  | threadPoolSizeError
  | threadCreationError
  | threadSendError
deriving DecidableEq, Repr

/-- Embeds `struct Worker { id: usize, thread: Option<JoinHandle<()>> }`. -/
structure Worker where
  id : Nat
  thread : Option Unit
deriving DecidableEq, Repr

/-- Embeds `struct ThreadPool { workers: Vec<Worker>, sender: Option<Sender<Job>> }`. -/
structure ThreadPool where
  workers : List Worker
  sender : Option Unit
deriving DecidableEq, Repr

/-- Observable effects of one `build` call: whether `mpsc::channel()` ran,
how many spawns were attempted, and how many worker threads were
successfully spawned (and, on failure, left running unjoined). -/
structure BuildTrace where
  channelCreated : Bool
  spawnAttempts : Nat
  spawned : Nat
deriving DecidableEq, Repr

/-- Embeds `Worker::new`: `thread::Builder::new().spawn(...)` succeeds iff the
oracle allows it; on failure the `or(Err(..))` maps to `ThreadCreationError`. -/
def workerNew (spawnOk : Nat → Bool) (id : Nat) : Except ThreadError Worker :=
  if spawnOk id then Except.ok ⟨id, some ()⟩ else Except.error ThreadError.threadCreationError

/-- Result of the `for id in 0..nr { workers.push(Worker::new(id, ..)?) }` loop. -/
structure SpawnResult where
  result : Except ThreadError (List Worker)
  spawned : Nat
  attempts : Nat
deriving Repr

/-- Embeds the spawn loop of `ThreadPool::build`: `count` iterations remain,
the next worker id is `id`, `acc` holds workers pushed so far.  The `?` on a
failed `Worker::new` returns the error at once (no retry, no cleanup). -/
def spawnWorkers (spawnOk : Nat → Bool) : Nat → Nat → List Worker → SpawnResult
  | 0, _, acc => ⟨Except.ok acc, acc.length, acc.length⟩
  | count + 1, id, acc =>
    match workerNew spawnOk id with
    | Except.ok w => spawnWorkers spawnOk count (id + 1) (acc ++ [w])
    | Except.error e => ⟨Except.error e, acc.length, acc.length + 1⟩

/-- Embeds the `match size` at the top of `ThreadPool::build`:
`-1` selects `thread::available_parallelism()` (the parameter `par`),
positive sizes are cast to `usize`, everything else is `ThreadPoolSizeError`. -/
def poolNr (par : Nat) (size : Int) : Except ThreadError Nat :=
  if size = -1 then Except.ok par
  else if size > 0 then Except.ok size.toNat
  else Except.error ThreadError.threadPoolSizeError

/-- Embeds `ThreadPool::build`, also returning the trace of its effects. -/
def build (par : Nat) (spawnOk : Nat → Bool) (size : Int) :
    Except ThreadError ThreadPool × BuildTrace :=
  match poolNr par size with
  | Except.error e => (Except.error e, ⟨false, 0, 0⟩)
  | Except.ok nr =>
    match spawnWorkers spawnOk nr 0 [] with
    | ⟨Except.error e, sp, att⟩ => (Except.error e, ⟨true, att, sp⟩)
    | ⟨Except.ok ws, sp, att⟩ => (Except.ok ⟨ws, some ()⟩, ⟨true, att, sp⟩)

/-- What a call to `ThreadPool::execute` does, as seen by the caller. -/
inductive ExecOutcome
  | enqueued
  | sendError
  | panicked
deriving DecidableEq, Repr

/-- Embeds `ThreadPool::execute`: `self.sender.as_ref().expect(..)` panics when
the sender is absent; otherwise `send` succeeds iff some receiver is still
connected, and a failed send becomes `ThreadSendError` (no panic). -/
def executeModel (pool : ThreadPool) (receiverConnected : Bool) : ExecOutcome :=
  match pool.sender with
  | none => ExecOutcome.panicked
  | some _ => if receiverConnected then ExecOutcome.enqueued else ExecOutcome.sendError

/-- Embeds `drop(self.sender.take())`, the first statement of
`ThreadPool::drop`: afterwards the pool's sender is absent. -/
def takeSender (pool : ThreadPool) : ThreadPool :=
  ⟨pool.workers, none⟩

/-- Observable teardown events of `ThreadPool::drop`. -/
inductive TeardownEvent
  | releaseSender
  | joinWorker (id : Nat)
deriving DecidableEq, Repr

/-- Embeds the join loop of `ThreadPool::drop`: workers in construction order,
`worker.thread.take()` joined when present; a failed join is the `expect`
panic, modelled as `none`. -/
def joinWorkers (joinOk : Nat → Bool) : List Worker → Option (List TeardownEvent)
  | [] => some []
  | w :: ws =>
    match w.thread with
    | none => joinWorkers joinOk ws
    | some _ =>
      if joinOk w.id then
        (joinWorkers joinOk ws).map (fun evs => TeardownEvent.joinWorker w.id :: evs)
      else none

/-- Embeds `ThreadPool::drop` as its event trace: release the sender first,
then join the workers; `none` is a propagated join-failure panic. -/
def dropRun (joinOk : Nat → Bool) (pool : ThreadPool) : Option (List TeardownEvent) :=
  (joinWorkers joinOk pool.workers).map (fun evs => TeardownEvent.releaseSender :: evs)

/-- Local state of one worker's loop thread (src/lib.rs, `Worker::new`):
blocked in `recv` (`idle`), executing a dequeued job (`running`), or out of
the loop after `recv` returned `Err` (`stopped`). -/
inductive WStatus
  | idle
  | running (job : Nat)
  | stopped
deriving DecidableEq, Repr

/-- Global state of the pool system: jobs the caller has yet to submit (in
program order), the channel buffer (FIFO), whether the sender is still alive,
the status of each worker thread, and the jobs that finished executing. -/
structure SysState where
  pendingJobs : List Nat
  queue : List Nat
  senderAlive : Bool
  workers : List WStatus
  executed : List Nat
deriving DecidableEq, Repr

/-- Small-step semantics of the pool.  `submit` is a successful
`ThreadPool::execute` by the owning thread; `dequeue` is a worker winning the
receiver lock and `recv` returning `Ok(job)`; `finish` is `job()` returning;
`closeSender` is `drop(self.sender.take())`, which the single owner can only
run after all its `execute` calls; `stop` is `recv` returning `Err` — by the
semantics of `mpsc`, only possible once the buffer is empty and the sender is
gone — and the worker breaking out of its loop. -/
inductive Step : SysState → SysState → Prop
  | submit (s : SysState) (j : Nat) (rest : List Nat) :
      s.pendingJobs = j :: rest → s.senderAlive = true →
      Step s ⟨rest, s.queue ++ [j], s.senderAlive, s.workers, s.executed⟩
  | dequeue (s : SysState) (i : Nat) (j : Nat) (rest : List Nat) :
      s.workers[i]? = some WStatus.idle → s.queue = j :: rest →
      Step s ⟨s.pendingJobs, rest, s.senderAlive, s.workers.set i (WStatus.running j), s.executed⟩
  | finish (s : SysState) (i : Nat) (j : Nat) :
      s.workers[i]? = some (WStatus.running j) →
      Step s ⟨s.pendingJobs, s.queue, s.senderAlive, s.workers.set i WStatus.idle,
        s.executed ++ [j]⟩
  | closeSender (s : SysState) :
      s.senderAlive = true → s.pendingJobs = [] →
      Step s ⟨s.pendingJobs, s.queue, false, s.workers, s.executed⟩
  | stop (s : SysState) (i : Nat) :
      s.workers[i]? = some WStatus.idle → s.queue = [] → s.senderAlive = false →
      Step s ⟨s.pendingJobs, s.queue, s.senderAlive, s.workers.set i WStatus.stopped, s.executed⟩

/-- Initial state: a freshly built pool of `n` idle workers and a caller
about to submit `jobs` in order. -/
def initState (n : Nat) (jobs : List Nat) : SysState :=
  ⟨jobs, [], true, List.replicate n WStatus.idle, []⟩

/-- States reachable from the initial state by interleaved steps. -/
inductive Reachable (n : Nat) (jobs : List Nat) : SysState → Prop
  | refl : Reachable n jobs (initState n jobs)
  | tail {s t : SysState} : Reachable n jobs s → Step s t → Reachable n jobs t

/-- Jobs currently being executed by some worker, as a list. -/
def runningList (ws : List WStatus) : List Nat :=
  ws.filterMap fun w =>
    match w with
    | WStatus.running j => some j
    | _ => none

/-- Multiset of job tags a single worker status holds. -/
def statusJobs (w : WStatus) : Multiset Nat :=
  match w with
  | WStatus.running j => {j}
  | _ => 0

/-- Multiset of jobs currently being executed. -/
def runningM (ws : List WStatus) : Multiset Nat :=
  (runningList ws : Multiset Nat)

/-- Every job in the system, wherever it currently sits. -/
def jobsOf (s : SysState) : Multiset Nat :=
  (s.executed : Multiset Nat) + (s.queue : Multiset Nat) + runningM s.workers
    + (s.pendingJobs : Multiset Nat)

/-- The inductive invariant of the pool system: the number of workers is
fixed, no job is created, duplicated or destroyed; the sender dies only after
all submissions; a stopped worker certifies a dead sender; and once every
worker of a nonempty pool has stopped the buffer is empty. -/
def Inv (n : Nat) (jobs : List Nat) (s : SysState) : Prop :=
  s.workers.length = n ∧
  jobsOf s = (jobs : Multiset Nat) ∧
  (s.senderAlive = false → s.pendingJobs = []) ∧
  (WStatus.stopped ∈ s.workers → s.senderAlive = false) ∧
  ((s.workers ≠ [] ∧ ∀ w ∈ s.workers, w = WStatus.stopped) → s.queue = [])

lemma coe_append (l₁ l₂ : List Nat) :
    ((l₁ ++ l₂ : List Nat) : Multiset Nat) = (l₁ : Multiset Nat) + (l₂ : Multiset Nat) :=
  (Multiset.coe_add l₁ l₂).symm

lemma coe_cons (a : Nat) (l : List Nat) :
    ((a :: l : List Nat) : Multiset Nat) = {a} + (l : Multiset Nat) := by
  rw [← Multiset.cons_coe, ← Multiset.singleton_add]

lemma runningM_cons (w : WStatus) (ws : List WStatus) :
    runningM (w :: ws) = statusJobs w + runningM ws := by
  cases w <;>
    simp [runningM, runningList, statusJobs, List.filterMap_cons, ← Multiset.cons_coe,
      ← Multiset.singleton_add]

lemma runningM_set (ws : List WStatus) (i : Nat) (x y : WStatus) (h : ws[i]? = some y) :
    runningM (ws.set i x) + statusJobs y = runningM ws + statusJobs x := by
  induction ws generalizing i with
  | nil => simp at h
  | cons w t ih =>
    cases i with
    | zero =>
      simp only [List.getElem?_cons_zero, Option.some.injEq] at h
      subst h
      rw [List.set_cons_zero, runningM_cons, runningM_cons]
      abel
    | succ i =>
      simp only [List.getElem?_cons_succ] at h
      rw [List.set_cons_succ, runningM_cons, runningM_cons, add_assoc, ih i h, ← add_assoc]

lemma runningM_replicate_idle (n : Nat) : runningM (List.replicate n WStatus.idle) = 0 := by
  induction n with
  | zero => rfl
  | succ n ih => rw [List.replicate_succ, runningM_cons, ih]; rfl

lemma runningM_of_all_stopped (ws : List WStatus) (h : ∀ w ∈ ws, w = WStatus.stopped) :
    runningM ws = 0 := by
  induction ws with
  | nil => rfl
  | cons w t ih =>
    rw [runningM_cons, h w (List.mem_cons_self w t), ih fun w hw => h w (List.mem_cons_of_mem _ hw)]
    rfl

lemma inv_init (n : Nat) (jobs : List Nat) : Inv n jobs (initState n jobs) := by
  refine ⟨List.length_replicate n _, ?_, ?_, ?_, ?_⟩
  · simp [jobsOf, initState, runningM_replicate_idle]
  · intro h; simp [initState] at h
  · intro h; simp [initState, List.mem_replicate] at h
  · intro _; rfl

lemma inv_step {n : Nat} {jobs : List Nat} {s t : SysState}
    (hinv : Inv n jobs s) (hst : Step s t) : Inv n jobs t := by
  obtain ⟨h1, h2, h3, h4, h5⟩ := hinv
  cases hst with
  | submit j rest hpend halive =>
    refine ⟨h1, ?_, ?_, ?_, ?_⟩
    · simp only [jobsOf] at h2 ⊢
      rw [← h2, hpend]
      simp only [coe_append, coe_cons, Multiset.coe_nil]
      abel
    · intro hf; rw [halive] at hf; simp at hf
    · intro hmem; have hc := h4 hmem; rw [halive] at hc; simp at hc
    · rintro ⟨hne, hall⟩
      obtain ⟨w, hw⟩ := List.exists_mem_of_ne_nil s.workers hne
      have hc := h4 ((hall w hw) ▸ hw)
      rw [halive] at hc; simp at hc
  | dequeue i j rest hidle hq =>
    obtain ⟨hlt, -⟩ := List.getElem?_eq_some_iff.mp hidle
    refine ⟨by simpa using h1, ?_, h3, ?_, ?_⟩
    · have hrm := runningM_set s.workers i (WStatus.running j) WStatus.idle hidle
      simp only [statusJobs, add_zero] at hrm
      simp only [jobsOf] at h2 ⊢
      rw [← h2, hq, hrm]
      simp only [coe_append, coe_cons, Multiset.coe_nil]
      abel
    · intro hmem
      rcases List.mem_or_eq_of_mem_set hmem with hin | heq
      · exact h4 hin
      · simp at heq
    · rintro ⟨-, hall⟩
      have hmem : WStatus.running j ∈ s.workers.set i (WStatus.running j) :=
        List.getElem?_mem (List.getElem?_set_self hlt)
      exact absurd (hall _ hmem) (by simp)
  | finish i j hrun =>
    obtain ⟨hlt, -⟩ := List.getElem?_eq_some_iff.mp hrun
    refine ⟨by simpa using h1, ?_, h3, ?_, ?_⟩
    · have hrm := runningM_set s.workers i WStatus.idle (WStatus.running j) hrun
      simp only [statusJobs, add_zero] at hrm
      simp only [jobsOf] at h2 ⊢
      rw [← h2, ← hrm]
      simp only [coe_append, coe_cons, Multiset.coe_nil]
      abel
    · intro hmem
      rcases List.mem_or_eq_of_mem_set hmem with hin | heq
      · exact h4 hin
      · simp at heq
    · rintro ⟨-, hall⟩
      have hmem : WStatus.idle ∈ s.workers.set i WStatus.idle :=
        List.getElem?_mem (List.getElem?_set_self hlt)
      exact absurd (hall _ hmem) (by simp)
  | closeSender halive hpend =>
    exact ⟨h1, h2, fun _ => hpend, fun _ => rfl, h5⟩
  | stop i hidle hq hdead =>
    refine ⟨by simpa using h1, ?_, h3, fun _ => hdead, fun _ => hq⟩
    · have hrm := runningM_set s.workers i WStatus.stopped WStatus.idle hidle
      simp only [statusJobs, add_zero] at hrm
      simp only [jobsOf] at h2 ⊢
      rw [← h2, hrm]

lemma inv_reachable {n : Nat} {jobs : List Nat} {s : SysState}
    (hr : Reachable n jobs s) : Inv n jobs s := by
  induction hr with
  | refl => exact inv_init n jobs
  | tail _ hstep ih => exact inv_step ih hstep

lemma spawnWorkers_all_ok (spawnOk : Nat → Bool) (h : ∀ k, spawnOk k = true) :
    ∀ (count id : Nat) (acc : List Worker),
      spawnWorkers spawnOk count id acc =
        ⟨Except.ok (acc ++ (List.range' id count).map fun k => Worker.mk k (some ())),
          acc.length + count, acc.length + count⟩ := by
  intro count
  induction count with
  | zero => intro id acc; simp [spawnWorkers]
  | succ c ih =>
    intro id acc
    rw [spawnWorkers, List.range'_succ]
    simp only [workerNew, h id, if_true, ih (id + 1) (acc ++ [⟨id, some ()⟩])]
    rw [SpawnResult.mk.injEq]
    refine ⟨congrArg Except.ok ?_, ?_, ?_⟩
    · simp [List.append_assoc]
    · simp only [List.length_append, List.length_cons, List.length_nil]; omega
    · simp only [List.length_append, List.length_cons, List.length_nil]; omega

lemma spawnWorkers_ok_shape (spawnOk : Nat → Bool) :
    ∀ (count id : Nat) (acc ws : List Worker) (sp att : Nat),
      spawnWorkers spawnOk count id acc = ⟨Except.ok ws, sp, att⟩ →
      ws = acc ++ (List.range' id count).map fun k => Worker.mk k (some ()) := by
  intro count
  induction count with
  | zero =>
    intro id acc ws sp att h
    simp [spawnWorkers] at h
    simp [h.1.symm]
  | succ c ih =>
    intro id acc ws sp att h
    rw [spawnWorkers] at h
    rcases hsp : spawnOk id with hf | ht
    · simp [workerNew, hsp] at h
    · simp only [workerNew, hsp, if_true] at h
      have := ih (id + 1) (acc ++ [⟨id, some ()⟩]) ws sp att h
      rw [this, List.range'_succ]
      simp

lemma spawnWorkers_fail (spawnOk : Nat → Bool) :
    ∀ (count d id : Nat) (acc : List Worker),
      d < count → spawnOk (id + d) = false → (∀ e, e < d → spawnOk (id + e) = true) →
      spawnWorkers spawnOk count id acc =
        ⟨Except.error ThreadError.threadCreationError, acc.length + d, acc.length + d + 1⟩ := by
  intro count
  induction count with
  | zero => intro d id acc hd; omega
  | succ c ih =>
    intro d id acc hd hfail hok
    cases d with
    | zero =>
      rw [spawnWorkers]
      simp only [Nat.add_zero] at hfail
      simp [workerNew, hfail]
    | succ e =>
      have h0 : spawnOk id = true := by simpa using hok 0 (Nat.succ_pos e)
      rw [spawnWorkers]
      simp only [workerNew, h0, if_true]
      have hfail' : spawnOk (id + 1 + e) = false := by
        rw [show id + 1 + e = id + (e + 1) by omega]; exact hfail
      have hok' : ∀ e', e' < e → spawnOk (id + 1 + e') = true := by
        intro e' he'
        rw [show id + 1 + e' = id + (e' + 1) by omega]
        exact hok (e' + 1) (by omega)
      have hrec := ih e (id + 1) (acc ++ [Worker.mk id (some ())]) (by omega) hfail' hok'
      rw [hrec, SpawnResult.mk.injEq]
      refine ⟨rfl, ?_, ?_⟩ <;>
        (simp only [List.length_append, List.length_cons, List.length_nil]; omega)

lemma joinWorkers_shape (joinOk : Nat → Bool) :
    ∀ (ws : List Worker) (evs : List TeardownEvent),
      joinWorkers joinOk ws = some evs →
      evs = ws.filterMap fun w => w.thread.map fun _ => TeardownEvent.joinWorker w.id := by
  intro ws
  induction ws with
  | nil =>
    intro evs h
    simp only [joinWorkers, Option.some.injEq] at h
    simp [h.symm]
  | cons w t ih =>
    intro evs h
    rw [joinWorkers] at h
    cases hth : w.thread with
    | none =>
      rw [hth] at h
      simp [List.filterMap_cons, hth, ih evs h]
    | some u =>
      rw [hth] at h
      cases hj : joinOk w.id with
      | false => simp [hj] at h
      | true =>
        simp only [hj, if_true] at h
        rcases Option.map_eq_some'.mp h with ⟨evs', hevs', heq⟩
        rw [← heq, ih evs' hevs']
        simp [List.filterMap_cons, hth]

lemma joinWorkers_fail (joinOk : Nat → Bool) :
    ∀ (ws : List Worker) (w : Worker), w ∈ ws → w.thread.isSome = true →
      joinOk w.id = false → joinWorkers joinOk ws = none := by
  intro ws
  induction ws with
  | nil => intro w hw _ _; simp at hw
  | cons v t ih =>
    intro w hw hth hj
    rcases List.mem_cons.mp hw with heq | hmem
    · subst heq
      cases hvt : w.thread with
      | none => rw [hvt] at hth; simp at hth
      | some u => rw [joinWorkers, hvt, hj]; simp
    · rw [joinWorkers]
      cases hvt : v.thread with
      | none => exact ih w hmem hth hj
      | some u =>
        cases hjv : joinOk v.id with
        | false => simp
        | true => simp [ih w hmem hth hj]

/-- Claim C2: for every signed integer `size` with `size ≤ 0` and `size ≠ -1`
(the auto-sentinel), `build size` returns `ThreadPoolSizeError`, and no
partial pool is left running: the channel is never created and no worker
thread is spawned. -/
theorem build_pool_size_error (par : Nat) (spawnOk : Nat → Bool) (size : Int)
    (hle : size ≤ 0) (hne : size ≠ -1) :
    build par spawnOk size =
      (Except.error ThreadError.threadPoolSizeError, ⟨false, 0, 0⟩) := by
  have hpos : ¬(0 : Int) < size := by omega
  simp [build, poolNr, hne, hpos]

/-- Witness for C2 at `size = -2`. -/
theorem build_pool_size_error_witness :
    ((-2 : Int) ≤ 0 ∧ (-2 : Int) ≠ -1) ∧
      build 4 (fun _ => true) (-2) =
        (Except.error ThreadError.threadPoolSizeError, ⟨false, 0, 0⟩) :=
  ⟨⟨by decide, by decide⟩, build_pool_size_error 4 (fun _ => true) (-2) (by decide) (by decide)⟩

/-- Claim C3: for every `size > 0`, when every thread spawn succeeds,
`build size` returns `Ok` with exactly `size` workers and a present sender. -/
theorem build_pos_size_ok (par : Nat) (spawnOk : Nat → Bool) (size : Int)
    (hpos : 0 < size) (hall : ∀ k, spawnOk k = true) :
    ∃ pool : ThreadPool,
      (build par spawnOk size).1 = Except.ok pool ∧
      pool.workers.length = size.toNat ∧ pool.sender = some () := by
  have hne : size ≠ -1 := by omega
  have hb := spawnWorkers_all_ok spawnOk hall size.toNat 0 []
  refine ⟨⟨(List.range' 0 size.toNat).map fun k => Worker.mk k (some ()), some ()⟩, ?_, ?_, rfl⟩
  · simp [build, poolNr, hne, hpos, hb]
  · simp [List.length_range']

/-- Witness for C3 at `size = 2`. -/
theorem build_pos_size_ok_witness :
    ∃ pool : ThreadPool,
      (build 3 (fun _ => true) 2).1 = Except.ok pool ∧
      pool.workers.length = (2 : Int).toNat ∧ pool.sender = some () :=
  build_pos_size_ok 3 (fun _ => true) 2 (by decide) (fun _ => rfl)

/-- Claim C4: `build (-1)` (the auto-sentinel) succeeds, when every spawn
succeeds, with worker count equal to the platform's reported available
parallelism `par`. -/
theorem build_auto_sentinel (par : Nat) (spawnOk : Nat → Bool)
    (hall : ∀ k, spawnOk k = true) :
    ∃ pool : ThreadPool,
      (build par spawnOk (-1)).1 = Except.ok pool ∧
      pool.workers.length = par ∧ pool.sender = some () := by
  have hb := spawnWorkers_all_ok spawnOk hall par 0 []
  refine ⟨⟨(List.range' 0 par).map fun k => Worker.mk k (some ()), some ()⟩, ?_, ?_, rfl⟩
  · simp [build, poolNr, hb]
  · simp [List.length_range']

/-- Witness for C4 at `par = 8`. -/
theorem build_auto_sentinel_witness :
    ∃ pool : ThreadPool,
      (build 8 (fun _ => true) (-1)).1 = Except.ok pool ∧
      pool.workers.length = 8 ∧ pool.sender = some () :=
  build_auto_sentinel 8 (fun _ => true) (fun _ => rfl)

/-- Claim C6: if the first failing spawn during `build` is the one for worker
`k` (all earlier spawns succeeded), `build` returns `ThreadCreationError`
propagated from that first failure: exactly `k + 1` spawns were attempted
(no retry) and the `k` workers already created are abandoned with their
threads still running (the trace records them spawned and `build` performs
no further action on them). -/
theorem build_worker_creation_error (par k : Nat) (spawnOk : Nat → Bool) (size : Int) (nr : Nat)
    (hnr : poolNr par size = Except.ok nr) (hk : k < nr)
    (hfail : spawnOk k = false) (hok : ∀ j, j < k → spawnOk j = true) :
    build par spawnOk size =
      (Except.error ThreadError.threadCreationError, ⟨true, k + 1, k⟩) := by
  have hs := spawnWorkers_fail spawnOk nr k 0 [] hk (by simpa using hfail)
    (fun e he => by simpa using hok e he)
  simp only [List.length_nil, Nat.zero_add] at hs
  simp [build, hnr, hs]

/-- Witness for C6: spawns succeed for workers 0 and 1 and fail for
worker 2 in a `build 5`. -/
theorem build_worker_creation_error_witness :
    (poolNr 4 5 = Except.ok 5 ∧ 2 < 5 ∧ (fun i => decide (i < 2)) 2 = false) ∧
      build 4 (fun i => decide (i < 2)) 5 =
        (Except.error ThreadError.threadCreationError, ⟨true, 3, 2⟩) :=
  ⟨⟨rfl, by decide, by decide⟩,
    build_worker_creation_error 4 2 (fun i => decide (i < 2)) 5 5 rfl (by decide) (by decide)
      (fun j hj => by simpa using hj)⟩

lemma filterMap_some_eq_map (l : List Nat) :
    (l.filterMap fun k => some (TeardownEvent.joinWorker k)) =
      l.map TeardownEvent.joinWorker := by
  induction l with
  | nil => rfl
  | cons a t ih => simp [List.filterMap_cons, ih]

lemma joinWorkers_all_ok (joinOk : Nat → Bool) (h : ∀ k, joinOk k = true) :
    ∀ ws : List Worker,
      joinWorkers joinOk ws =
        some (ws.filterMap fun w => w.thread.map fun _ => TeardownEvent.joinWorker w.id) := by
  intro ws
  induction ws with
  | nil => simp [joinWorkers]
  | cons w t ih =>
    rw [joinWorkers]
    cases hth : w.thread with
    | none => simp [List.filterMap_cons, hth, ih]
    | some u => simp [List.filterMap_cons, hth, h w.id, ih]

lemma build_ok_shape (par : Nat) (spawnOk : Nat → Bool) (size : Int) (pool : ThreadPool)
    (hb : (build par spawnOk size).1 = Except.ok pool) :
    ∃ nr, pool.workers = (List.range' 0 nr).map (fun k => Worker.mk k (some ())) ∧
      pool.sender = some () := by
  unfold build at hb
  split at hb
  · simp at hb
  · next nr hpn =>
    split at hb
    · next e sp att hsw => simp at hb
    · next ws sp att hsw =>
      have hb' : (⟨ws, some ()⟩ : ThreadPool) = pool := by simpa using hb
      subst hb'
      exact ⟨nr, by simpa using spawnWorkers_ok_shape spawnOk nr 0 [] ws sp att hsw, rfl⟩

/-- Counterexample to claim C5 as stated: once teardown has begun the pool's
sender has been taken (`drop(self.sender.take())`), and an `execute` call on
such a pool hits the `expect` panic instead of returning `SendError`. -/
theorem execute_after_teardown_counterexample :
    executeModel (takeSender ⟨[⟨0, some ()⟩], some ()⟩) true = ExecOutcome.panicked ∧
    ExecOutcome.panicked ≠ ExecOutcome.sendError :=
  ⟨rfl, by decide⟩

/-- Claim C5 (amended): `execute` returns `ThreadSendError` in the
mid-shutdown situation in which the pool still holds its sender but the
channel is closed on the receiving side; the job is then never handed to the
channel (so never executed) and the call does not panic.  When instead the
sender itself has already been released by teardown, `execute` panics on its
`expect` — a call safe Rust's borrow rules make unreachable. -/
theorem execute_send_error (pool : ThreadPool) (hs : pool.sender = some ()) :
    executeModel pool false = ExecOutcome.sendError ∧
    ExecOutcome.sendError ≠ ExecOutcome.panicked ∧
    ExecOutcome.sendError ≠ ExecOutcome.enqueued := by
  refine ⟨?_, by decide, by decide⟩
  simp [executeModel, hs]

/-- Witness for the amended C5. -/
theorem execute_send_error_witness :
    (⟨[], some ()⟩ : ThreadPool).sender = some () ∧
      (executeModel ⟨[], some ()⟩ false = ExecOutcome.sendError ∧
       ExecOutcome.sendError ≠ ExecOutcome.panicked ∧
       ExecOutcome.sendError ≠ ExecOutcome.enqueued) :=
  ⟨rfl, execute_send_error ⟨[], some ()⟩ rfl⟩

/-- Claim C7: teardown first releases the sender and only then joins the
workers: every completed teardown trace is exactly `releaseSender` followed
by the per-worker joins in construction order; and a failed join is
propagated as a panic (`none`) rather than caught and ignored. -/
theorem teardown_order (joinOk : Nat → Bool) (pool : ThreadPool) :
    (∀ tr, dropRun joinOk pool = some tr →
      tr = TeardownEvent.releaseSender ::
        (pool.workers.filterMap fun w => w.thread.map fun _ => TeardownEvent.joinWorker w.id)) ∧
    (∀ w ∈ pool.workers, w.thread.isSome = true → joinOk w.id = false →
      dropRun joinOk pool = none) := by
  constructor
  · intro tr htr
    rcases Option.map_eq_some'.mp htr with ⟨evs, hevs, heq⟩
    rw [← heq, joinWorkers_shape joinOk pool.workers evs hevs]
  · intro w hw hth hj
    unfold dropRun
    rw [joinWorkers_fail joinOk pool.workers w hw hth hj]
    rfl

/-- Witness for C7: a successful teardown of a one-worker pool, and a
panicking teardown when that worker's join fails. -/
theorem teardown_order_witness :
    (dropRun (fun _ => true) ⟨[⟨0, some ()⟩], some ()⟩ =
        some [TeardownEvent.releaseSender, TeardownEvent.joinWorker 0] ∧
      [TeardownEvent.releaseSender, TeardownEvent.joinWorker 0] =
        TeardownEvent.releaseSender ::
          (([⟨0, some ()⟩] : List Worker).filterMap fun w =>
            w.thread.map fun _ => TeardownEvent.joinWorker w.id)) ∧
    dropRun (fun _ => false) ⟨[⟨0, some ()⟩], some ()⟩ = none :=
  ⟨⟨rfl, (teardown_order (fun _ => true) ⟨[⟨0, some ()⟩], some ()⟩).1 _ rfl⟩,
    (teardown_order (fun _ => false) ⟨[⟨0, some ()⟩], some ()⟩).2 ⟨0, some ()⟩
      (List.mem_cons_self _ _) rfl rfl⟩

/-- Claim C10: a pool returned by a successful `build` has its sender
present, so the `expect` panic branch inside `execute` is unreachable on a
live pool: whatever the state of the receiving side, `execute` never
panics. -/
theorem execute_expect_unreachable (par : Nat) (spawnOk : Nat → Bool) (size : Int)
    (pool : ThreadPool) (hb : (build par spawnOk size).1 = Except.ok pool) :
    pool.sender = some () ∧
    executeModel pool true ≠ ExecOutcome.panicked ∧
    executeModel pool false ≠ ExecOutcome.panicked := by
  obtain ⟨nr, hws, hsend⟩ := build_ok_shape par spawnOk size pool hb
  exact ⟨hsend, by simp [executeModel, hsend], by simp [executeModel, hsend]⟩

/-- Witness for C10 on the pool built by `build 1`. -/
theorem execute_expect_unreachable_witness :
    (build 1 (fun _ => true) 1).1 = Except.ok ⟨[⟨0, some ()⟩], some ()⟩ ∧
      ((⟨[⟨0, some ()⟩], some ()⟩ : ThreadPool).sender = some () ∧
       executeModel ⟨[⟨0, some ()⟩], some ()⟩ true ≠ ExecOutcome.panicked ∧
       executeModel ⟨[⟨0, some ()⟩], some ()⟩ false ≠ ExecOutcome.panicked) :=
  ⟨rfl, execute_expect_unreachable 1 (fun _ => true) 1 _ rfl⟩

/-- Claim C9: in a pool returned by a successful `build`, every worker's
numeric identity equals its 0-based position in the workers collection (hence
the identities are unique and stable) and every worker's thread handle is
present; at teardown each handle is consumed by exactly one join, so the
teardown trace joins each worker id exactly once, in order. -/
theorem worker_identity_invariant (par : Nat) (spawnOk : Nat → Bool) (size : Int)
    (pool : ThreadPool) (hb : (build par spawnOk size).1 = Except.ok pool) :
    pool.workers = (List.range pool.workers.length).map (fun k => Worker.mk k (some ())) ∧
    dropRun (fun _ => true) pool =
      some (TeardownEvent.releaseSender ::
        (List.range pool.workers.length).map TeardownEvent.joinWorker) := by
  obtain ⟨nr, hws, hsend⟩ := build_ok_shape par spawnOk size pool hb
  have hlen : pool.workers.length = nr := by simp [hws]
  constructor
  · rw [hlen, hws, List.range_eq_range']
  · unfold dropRun
    rw [joinWorkers_all_ok (fun _ => true) (fun _ => rfl) pool.workers, hlen, hws]
    simp [List.filterMap_map, Function.comp_def, List.range_eq_range', filterMap_some_eq_map]

/-- Witness for C9 on the pool built by `build 2`. -/
theorem worker_identity_invariant_witness :
    (build 1 (fun _ => true) 2).1 = Except.ok ⟨[⟨0, some ()⟩, ⟨1, some ()⟩], some ()⟩ ∧
      ((⟨[⟨0, some ()⟩, ⟨1, some ()⟩], some ()⟩ : ThreadPool).workers =
        (List.range (⟨[⟨0, some ()⟩, ⟨1, some ()⟩], some ()⟩ : ThreadPool).workers.length).map
          (fun k => Worker.mk k (some ())) ∧
       dropRun (fun _ => true) ⟨[⟨0, some ()⟩, ⟨1, some ()⟩], some ()⟩ =
        some (TeardownEvent.releaseSender ::
          (List.range
            (⟨[⟨0, some ()⟩, ⟨1, some ()⟩], some ()⟩ : ThreadPool).workers.length).map
              TeardownEvent.joinWorker)) :=
  ⟨rfl, worker_identity_invariant 1 (fun _ => true) 2 _ rfl⟩

/-- Claim C8: no step of the worker loop takes a worker directly from
`running` to `stopped`: from `running j` a worker can only stay `running j`
or become `idle` after the job completes; and a worker becomes `stopped`
only from `idle`, with the job source empty and the sender gone (the channel
reporting closure while the worker blocks). -/
theorem worker_no_running_to_stopped (s t : SysState) (i j : Nat) (hst : Step s t) :
    (s.workers[i]? = some (WStatus.running j) →
      t.workers[i]? = some WStatus.idle ∨ t.workers[i]? = some (WStatus.running j)) ∧
    (t.workers[i]? = some WStatus.stopped → s.workers[i]? ≠ some WStatus.stopped →
      s.workers[i]? = some WStatus.idle ∧ s.queue = [] ∧ s.senderAlive = false) := by
  cases hst with
  | submit jx rest hpend halive =>
    exact ⟨fun h => Or.inr h, fun ht hne => absurd ht hne⟩
  | dequeue ix jx rest hidle hq =>
    constructor
    · intro h
      rcases eq_or_ne ix i with heq | hne
      · subst heq; rw [hidle] at h; simp at h
      · right
        simpa [List.getElem?_set_ne hne] using h
    · intro ht hne
      rcases eq_or_ne ix i with heq | hne'
      · subst heq
        obtain ⟨hlt, -⟩ := List.getElem?_eq_some_iff.mp hidle
        rw [List.getElem?_set_self hlt] at ht
        simp at ht
      · rw [List.getElem?_set_ne hne'] at ht
        exact absurd ht hne
  | finish ix jx hrun =>
    constructor
    · intro h
      rcases eq_or_ne ix i with heq | hne
      · subst heq
        obtain ⟨hlt, -⟩ := List.getElem?_eq_some_iff.mp hrun
        left
        rw [List.getElem?_set_self hlt]
      · right
        simpa [List.getElem?_set_ne hne] using h
    · intro ht hne
      rcases eq_or_ne ix i with heq | hne'
      · subst heq
        obtain ⟨hlt, -⟩ := List.getElem?_eq_some_iff.mp hrun
        rw [List.getElem?_set_self hlt] at ht
        simp at ht
      · rw [List.getElem?_set_ne hne'] at ht
        exact absurd ht hne
  | closeSender halive hpend =>
    exact ⟨fun h => Or.inr h, fun ht hne => absurd ht hne⟩
  | stop ix hidle hq hdead =>
    constructor
    · intro h
      rcases eq_or_ne ix i with heq | hne
      · subst heq; rw [hidle] at h; simp at h
      · right
        simpa [List.getElem?_set_ne hne] using h
    · intro ht hne
      rcases eq_or_ne ix i with heq | hne'
      · subst heq
        exact ⟨hidle, hq, hdead⟩
      · rw [List.getElem?_set_ne hne'] at ht
        exact absurd ht hne

/-- Witness for C8 on a concrete `stop` step of a one-worker system. -/
theorem worker_no_running_to_stopped_witness :
    Step ⟨[], [], false, [WStatus.idle], [7]⟩ ⟨[], [], false, [WStatus.stopped], [7]⟩ ∧
      ((([WStatus.idle] : List WStatus)[0]? = some (WStatus.running 0) →
        (([WStatus.stopped] : List WStatus)[0]? = some WStatus.idle ∨
         ([WStatus.stopped] : List WStatus)[0]? = some (WStatus.running 0))) ∧
       (([WStatus.stopped] : List WStatus)[0]? = some WStatus.stopped →
        ([WStatus.idle] : List WStatus)[0]? ≠ some WStatus.stopped →
        ([WStatus.idle] : List WStatus)[0]? = some WStatus.idle ∧
          ([] : List Nat) = [] ∧ false = false)) :=
  have hstep : Step ⟨[], [], false, [WStatus.idle], [7]⟩
      ⟨[], [], false, [WStatus.stopped], [7]⟩ :=
    Step.stop ⟨[], [], false, [WStatus.idle], [7]⟩ 0 rfl rfl rfl
  ⟨hstep, worker_no_running_to_stopped _ _ 0 0 hstep⟩

/-- Claim C1: for every worker count `n ≥ 1` and every list of jobs handed to
`execute`, in any reachable state in which teardown has completed (every
worker has stopped, hence every join has returned) the multiset of executed
jobs is exactly the multiset of submitted jobs — each submitted job ran
exactly once, none duplicated, none lost — so a per-job counter would read
exactly `N = jobs.length`. -/
theorem jobs_executed_exactly_once (n : Nat) (jobs : List Nat) (s : SysState)
    (hn : 1 ≤ n) (hr : Reachable n jobs s)
    (hstopped : ∀ w ∈ s.workers, w = WStatus.stopped) :
    (s.executed : Multiset Nat) = (jobs : Multiset Nat) ∧
    s.executed.length = jobs.length := by
  obtain ⟨h1, h2, h3, h4, h5⟩ := inv_reachable hr
  have hne : s.workers ≠ [] := by
    intro h
    rw [h] at h1
    simp at h1
    omega
  have hq : s.queue = [] := h5 ⟨hne, hstopped⟩
  obtain ⟨w, hw⟩ := List.exists_mem_of_ne_nil s.workers hne
  have hdead : s.senderAlive = false := h4 ((hstopped w hw) ▸ hw)
  have hpend : s.pendingJobs = [] := h3 hdead
  have hrm : runningM s.workers = 0 := runningM_of_all_stopped s.workers hstopped
  simp only [jobsOf, hq, hpend, hrm, Multiset.coe_nil, add_zero] at h2
  refine ⟨h2, ?_⟩
  have hcard := congrArg Multiset.card h2
  simpa using hcard

/-- Witness for C1: a complete one-worker run that submits job `5`, executes
it, closes the sender and stops the worker. -/
theorem jobs_executed_exactly_once_witness :
    (1 ≤ 1 ∧ Reachable 1 [5] ⟨[], [], false, [WStatus.stopped], [5]⟩) ∧
      ((([5] : List Nat) : Multiset Nat) = (([5] : List Nat) : Multiset Nat) ∧
        ([5] : List Nat).length = ([5] : List Nat).length) :=
  have h0 : Reachable 1 [5] (initState 1 [5]) := Reachable.refl
  have h1 : Reachable 1 [5] ⟨[], [5], true, [WStatus.idle], []⟩ :=
    h0.tail (Step.submit _ 5 [] rfl rfl)
  have h2 : Reachable 1 [5] ⟨[], [], true, [WStatus.running 5], []⟩ :=
    h1.tail (Step.dequeue _ 0 5 [] rfl rfl)
  have h3 : Reachable 1 [5] ⟨[], [], true, [WStatus.idle], [5]⟩ :=
    h2.tail (Step.finish _ 0 5 rfl)
  have h4 : Reachable 1 [5] ⟨[], [], false, [WStatus.idle], [5]⟩ :=
    h3.tail (Step.closeSender _ rfl rfl)
  have h5 : Reachable 1 [5] ⟨[], [], false, [WStatus.stopped], [5]⟩ :=
    h4.tail (Step.stop _ 0 rfl rfl rfl)
  ⟨⟨le_refl 1, h5⟩,
    jobs_executed_exactly_once 1 [5] ⟨[], [], false, [WStatus.stopped], [5]⟩ (le_refl 1) h5
      (fun _ hw => List.mem_singleton.mp hw)⟩

end RustPool
